import Mathlib

/-!
Verification of the clipquery transcript segmentation and retrieval pipeline.

The Python source under `backend/app` is shallowly embedded: Python strings
become lists of characters, Python floats (timestamps in seconds) become
rationals, and each source function becomes a Lean function of the same name.
Stateful route/service code is embedded as a function of an explicit
environment recording the outcomes of the external calls it makes.
-/

set_option autoImplicit false

/- Batteries seals rational arithmetic behind `irreducible`; re-opening it
locally lets `decide` evaluate the embedded functions on concrete inputs. -/
set_option allowUnsafeReducibility true
attribute [local semireducible] Rat.add Rat.sub Rat.mul Rat.div Rat.neg Rat.inv

namespace ClipQuery

/-! ## Embedded definitions -/

/-- A Python string, modelled as its list of characters. -/
abbrev Str := List Char

/-- Python `str.strip()`: remove whitespace from both ends. -/
def pyStrip (s : Str) : Str :=
  ((s.dropWhile Char.isWhitespace).reverse.dropWhile Char.isWhitespace).reverse

/-- Python `sep.join(parts)`. -/
def pyJoin (sep : Str) (parts : List Str) : Str :=
  (parts.intersperse sep).join

/-- Python `str.split()` with no argument: split on whitespace runs,
dropping empty pieces. -/
def pyWords : Str → List Str
  | [] => []
  | c :: rest =>
    if c.isWhitespace then pyWords rest
    else (c :: rest.takeWhile (fun x => !x.isWhitespace)) ::
      pyWords (rest.dropWhile (fun x => !x.isWhitespace))
termination_by s => s.length
decreasing_by
  · simp only [List.length_cons]; omega
  · simp only [List.length_cons]
    exact Nat.lt_succ_of_le ((List.dropWhile_suffix _).sublist.length_le)

/-- Consecutive chunks of `k` elements, as produced by
`[l[i:i+k] for i in range(0, len(l), k)]` (for `k ≥ 1`). -/
def chunksOf {α : Type} (k : ℕ) : List α → List (List α)
  | [] => []
  | a :: l => (a :: l.take (k - 1)) :: chunksOf k (l.drop (k - 1))
termination_by l => l.length
decreasing_by
  simp only [List.length_cons, List.length_drop]; omega

/-- Is the first character whitespace? -/
def headIsWS : Str → Bool
  | [] => false
  | c :: _ => c.isWhitespace

/-- Auxiliary scanner for `splitSentences`; `acc` is the current piece,
reversed. -/
def splitSentencesGo : Str → Str → List Str
  | [], acc => [acc.reverse]
  | c :: rest, acc =>
    if (c = '.' ∨ c = '!' ∨ c = '?') ∧ headIsWS rest then
      (acc.reverse ++ [c]) :: splitSentencesGo (rest.dropWhile Char.isWhitespace) []
    else splitSentencesGo rest (c :: acc)
termination_by s _ => s.length
decreasing_by
  · simp only [List.length_cons]
    exact Nat.lt_succ_of_le ((List.dropWhile_suffix _).sublist.length_le)
  · simp only [List.length_cons]; omega

/-- Python `re.split(r'(?<=[.!?])\s+', text)`: cut after each sentence-ending
punctuation character that is followed by a whitespace run; the run is
consumed. -/
def splitSentences (s : Str) : List Str := splitSentencesGo s []

/-- Python `text.endswith(('.', '!', '?'))`. -/
def sentenceEnd (s : Str) : Bool :=
  match s.getLast? with
  | some c => c == '.' || c == '!' || c == '?'
  | none => false

/-- A transcript span/segment `{text, start, end}`; timestamps in seconds. -/
structure Seg where
  text : Str
  start : ℚ
  «end» : ℚ
deriving DecidableEq, Repr

/-- The accumulation loop of `split_large_segments`
(`youtube_service.py` lines 111-140): `current` is `current_text`,
`curStart` is `current_start`; a sentence whose stripped text is empty is
skipped; the current buffer is flushed (with linearly interpolated end
timestamp) when it exceeds 200 characters or appending would exceed 400;
after the loop any remaining text is flushed with `end` pinned to the
original segment's `end`. -/
def splitLoop (tpc segEnd : ℚ) : List Str → Str → ℚ → List Seg
  | [], current, curStart =>
    if current ≠ [] then [⟨pyStrip current, curStart, segEnd⟩] else []
  | s :: rest, current, curStart =>
    if pyStrip s = [] then splitLoop tpc segEnd rest current curStart
    else if current ≠ [] ∧ (current.length > 200 ∨ current.length + 1 + s.length > 400) then
      ⟨pyStrip current, curStart, curStart + (current.length : ℚ) * tpc⟩ ::
        splitLoop tpc segEnd rest s (curStart + (current.length : ℚ) * tpc)
    else splitLoop tpc segEnd rest (pyStrip (current ++ ' ' :: s)) curStart

/-- `split_large_segments` (`youtube_service.py` lines 86-142): each segment
longer than 15 seconds is split on sentence boundaries, or failing that into
word chunks of `max(20, len(words) * 8 // duration)` words, and the pieces
are reassembled into chunks by `splitLoop`. -/
def split_large_segments (segments : List Seg) : List Seg :=
  segments.bind fun segment =>
    let text := segment.text
    let duration := segment.«end» - segment.start
    if duration ≤ 15 then [segment]
    else
      let sentences := splitSentences text
      let sentences :=
        if sentences.length ≤ 1 then
          let words := pyWords text
          let wps := max 20 (Int.toNat ⌊(words.length : ℚ) * 8 / duration⌋)
          (chunksOf wps words).map (pyJoin [' '])
        else sentences
      let tpc := if text ≠ [] then duration / (text.length : ℚ) else 1
      splitLoop tpc segment.«end» sentences [] segment.start

/-- The pause check of `group_small_segments` (`youtube_service.py` lines
178-183): a gap of more than half a second to the next span, `false` at the
last span. -/
def gapBreak (seg : Seg) : List Seg → Bool
  | next :: _ => decide (next.start - seg.«end» > (1 : ℚ) / 2)
  | [] => false

/-- The accumulation loop of `group_small_segments`
(`youtube_service.py` lines 154-203): `parts` is `text_parts` of the open
group and `gstart` its start (`none` when no group is open); a span with
blank stripped text is skipped entirely; the group is finalized on a
sentence-ending span once 5 seconds long, at 10 seconds regardless, on a
gap over 0.5 seconds to the next span once 5 seconds long, at 15 seconds,
or at the last span. -/
def groupLoop : List Seg → List Str → Option ℚ → List Seg
  | [], _, _ => []
  | seg :: rest, parts, gstart =>
    let text := pyStrip seg.text
    if text = [] then groupLoop rest parts gstart
    else
      let start := gstart.getD seg.start
      let parts' := parts ++ [text]
      let dur := seg.«end» - start
      if (5 ≤ dur ∧ (sentenceEnd text = true ∨ 10 ≤ dur ∨ gapBreak seg rest = true)) ∨
          15 ≤ dur ∨ rest = [] then
        ⟨pyJoin [' '] parts', start, seg.«end»⟩ :: groupLoop rest [] none
      else groupLoop rest parts' (some start)

/-- `group_small_segments` (`youtube_service.py` lines 145-205). -/
def group_small_segments (segments : List Seg) : List Seg :=
  groupLoop segments [] none

/-- `avg_duration` computed by `smart_segment_youtube_transcript`
(`youtube_service.py` line 223). -/
def avg_duration (l : List Seg) : ℚ :=
  (l.map (fun s => s.«end» - s.start)).sum / (l.length : ℚ)

/-- `smart_segment_youtube_transcript` (`youtube_service.py` lines 208-249):
strategy dispatch between splitting, grouping and pass-through. -/
def smart_segment_youtube_transcript (raw : List Seg) : List Seg :=
  if raw = [] then []
  else if raw.length = 1 ∨ avg_duration raw > 30 then split_large_segments raw
  else if avg_duration raw < 5 then group_small_segments raw
  else raw

/-- Concrete input for the Claim C1 witness. -/
def selW : List Seg := [⟨"a".data, 0, 1⟩, ⟨"b".data, 1, 2⟩]

/-- A retrieval window `{text, start_time, end_time}`. -/
structure Window where
  text : Str
  start_time : ℚ
  end_time : ℚ
deriving DecidableEq, Repr

/-- `last_end = max(segment['end'] for segment in segments)`
(`video_service.py` line 54); 0 for an empty list, which the caller rules
out. -/
def maxEnd : List Seg → ℚ
  | [] => 0
  | s :: rest => (rest.map (fun t => t.«end»)).foldl max s.«end»

/-- The three overlap conditions of `video_service.py` lines 62-64. -/
def overlapsWindow (cur wend : ℚ) (s : Seg) : Bool :=
  decide ((cur ≤ s.start ∧ s.start < wend) ∨ (cur < s.«end» ∧ s.«end» ≤ wend) ∨
    (s.start < cur ∧ wend < s.«end»))

/-- One iteration of the window loop at `current_time = cur`
(`video_service.py` lines 57-74): collect the overlapping segments, join
their stripped texts with single spaces, and emit a window only when the
joined text is non-blank; the window end is clipped to `last_end`. -/
def windowAt (segments : List Seg) (window_size lastEnd cur : ℚ) : Option Window :=
  let wend := cur + window_size
  let wsegs := segments.filter (overlapsWindow cur wend)
  if wsegs ≠ [] then
    let combined := pyJoin [' '] (wsegs.map (fun s => pyStrip s.text))
    if pyStrip combined ≠ [] then some ⟨pyStrip combined, cur, min wend lastEnd⟩
    else none
  else none

/-- Number of iterations of `while current_time < last_end` with
`current_time` starting at 0 and advancing by `overlap`
(`video_service.py` lines 56 and 76): the loop body runs exactly at
`current_time = overlap * k` for `k < ⌈last_end / overlap⌉` when the stride
is positive (for a non-positive stride the source loop would not terminate;
that case is unreachable from the call sites, which use the default
`overlap = 5`, and is modelled as zero iterations). -/
def windowIters (lastEnd stride : ℚ) : ℕ :=
  if 0 < stride then (⌈lastEnd / stride⌉).toNat else 0

/-- `create_overlapping_windows` (`video_service.py` lines 47-78). -/
def create_overlapping_windows (segments : List Seg) (window_size overlap : ℚ) :
    List Window :=
  if segments = [] then []
  else
    (List.range (windowIters (maxEnd segments) overlap)).filterMap
      (fun (k : ℕ) => windowAt segments window_size (maxEnd segments) (overlap * (k : ℚ)))

/-- Concrete input refuting the coverage part of Claim C2: two one-second
segments separated by a 19-second gap. -/
def gapSegs : List Seg := [⟨"a".data, 0, 1⟩, ⟨"b".data, 20, 21⟩]

/-- Concrete input for the Claim C2 witness. -/
def covSegs : List Seg := [⟨"hi".data, 0, 12⟩]

/-- The synthetic inputs of Claim C3: starting at time `p`, every span is
exactly one second long, gapless, with non-blank stripped text that does not
end in sentence punctuation. -/
def chain1s : ℚ → List Seg → Prop
  | _, [] => True
  | p, seg :: rest =>
    seg.start = p ∧ seg.«end» = p + 1 ∧ pyStrip seg.text ≠ [] ∧
      sentenceEnd (pyStrip seg.text) = false ∧ chain1s (p + 1) rest

instance chain1sDecidable : ∀ (p : ℚ) (l : List Seg), Decidable (chain1s p l)
  | _, [] => isTrue trivial
  | p, seg :: rest =>
    have : Decidable (chain1s (p + 1) rest) := chain1sDecidable (p + 1) rest
    decidable_of_iff (seg.start = p ∧ seg.«end» = p + 1 ∧ pyStrip seg.text ≠ [] ∧
      sentenceEnd (pyStrip seg.text) = false ∧ chain1s (p + 1) rest) Iff.rfl

/-- Invariant on the state of `groupLoop`: either no group is open, or the
open group started an integral number `1 ≤ n ≤ 9` of seconds before the
current position `p`. -/
def groupState (p : ℚ) : List Str → Option ℚ → Prop
  | parts, none => parts = []
  | parts, some s0 => parts ≠ [] ∧ ∃ n : ℕ, p - s0 = (n : ℚ) ∧ 1 ≤ n ∧ n ≤ 9

/-- Eleven gapless one-second spans: input for the Claim C3 counterexample
and witness. -/
def oneSecSpans : List Seg :=
  (List.range 11).map (fun k => ⟨"a".data, (k : ℚ), (k : ℚ) + 1⟩)

/-- A well-formed piece fed to `splitLoop` by the word-chunk path: non-empty,
fixed by `strip`, and at most 399 characters. -/
def goodPiece (s : Str) : Prop := s ≠ [] ∧ pyStrip s = s ∧ s.length ≤ 399

/-- Concrete short input refuting Claim C4 as stated: a 60-second span whose
text is only two words. -/
def shortSpan : Seg := ⟨"hello world".data, 0, 60⟩

/-- Concrete rich input for the Claim C4 witness: 45 words of 9 characters
joined by spaces (449 characters) over 60 seconds. -/
def wideSpan : Seg := ⟨pyJoin [' '] (List.replicate 45 (List.replicate 9 'a')), 0, 60⟩

deriving instance DecidableEq for Except

/-- A search result `{text, start_time, end_time, confidence}`. -/
structure SearchMatch where
  text : Str
  start_time : ℚ
  end_time : ℚ
  confidence : ℚ
deriving DecidableEq, Repr

/-- Environment of `unified_video_search`: whether Pinecone is configured
(`PINECONE_API_KEY` set and not the placeholder), the outcome of the Pinecone
block of `search_service.py` lines 33-82 (`Except.ok (some results)` when the
index exists and the query succeeds, `Except.ok none` when the index is
missing, `Except.error` when the block raises), whether database queries
succeed, and the persisted segments of the searched video. -/
structure SearchEnv where
  pineconeConfigured : Bool
  pineconeStage : Except Str (Option (List SearchMatch))
  dbOK : Bool
  segments : List Seg

def insertByStart (s : Seg) : List Seg → List Seg
  | [] => [s]
  | t :: rest => if s.start ≤ t.start then s :: t :: rest else t :: insertByStart s rest

/-- `order_by(VideoSegmentModel.start_time)` on the segment table, as a
stable insertion sort. -/
def sortByStart : List Seg → List Seg
  | [] => []
  | s :: rest => insertByStart s (sortByStart rest)

def lowerStr (s : Str) : Str := s.map Char.toLower

def startsWith : Str → Str → Bool
  | [], _ => true
  | _ :: _, [] => false
  | c :: cs, h :: hs => c == h && startsWith cs hs

def containsStr : Str → Str → Bool
  | [], needle => needle.isEmpty
  | c :: t, needle => startsWith needle (c :: t) || containsStr t needle

/-- SQL `ILIKE '%q%'`: case-insensitive substring match (percent/underscore
wildcards inside `q` are not modelled). -/
def ilikeMatch (text q : Str) : Bool := containsStr (lowerStr text) (lowerStr q)

/-- The substring query of `search_service.py` lines 88-91 and 98-101:
filter the video's segments by case-insensitive substring, order by start
time, limit the result count. -/
def db_like (rows : List Seg) (q : Str) (lim : ℕ) : List Seg :=
  (sortByStart (rows.filter (fun s => ilikeMatch s.text q))).take lim

/-- A database query, which raises when the database is unavailable. -/
def dbLike (env : SearchEnv) (q : Str) (lim : ℕ) : Except Str (List Seg) :=
  if env.dbOK then Except.ok (db_like env.segments q lim)
  else Except.error "database error".data

/-- The token-fallback loop of `search_service.py` lines 95-104: for each
word, if longer than 3 characters, run a substring query limited to 3 and
extend the accumulated segments, breaking once `top_k` is reached. -/
def token_word_loop (env : SearchEnv) (top_k : ℕ) : List Str → List Seg →
    Except Str (List Seg)
  | [], acc => Except.ok acc
  | w :: rest, acc =>
    if 3 < w.length then
      match dbLike env w 3 with
      | Except.error e => Except.error e
      | Except.ok ws =>
        if top_k ≤ (acc ++ ws).length then Except.ok (acc ++ ws)
        else token_word_loop env top_k rest (acc ++ ws)
    else token_word_loop env top_k rest acc

def token_fallback_spec_go (env : SearchEnv) (top_k : ℕ) : List Str → List Seg → List Seg
  | [], acc => acc
  | w :: rest, acc =>
    if top_k ≤ (acc ++ db_like env.segments w 3).length then
      acc ++ db_like env.segments w 3
    else token_fallback_spec_go env top_k rest (acc ++ db_like env.segments w 3)

/-- The token-fallback stage in the words of the specification (§4.4 stage 3
and Claim C7), stated independently for comparison with the code's loop: for
each token longer than 3 characters in original order, perform a substring
match limited to 3 results per token, append the results, and stop once the
accumulated result count reaches `top_k`. -/
def token_fallback_spec (env : SearchEnv) (top_k : ℕ) (tokens : List Str) : List Seg :=
  token_fallback_spec_go env top_k (tokens.filter (fun w => 3 < w.length)) []

/-- The database-search fallback of `unified_video_search`
(`search_service.py` lines 86-120): exact substring stage, optional
token-fallback stage, and flat 0.7 confidence on every produced match. -/
def db_search_stage (env : SearchEnv) (q : Str) (top_k : ℕ) :
    Except Str (List SearchMatch) :=
  match dbLike env q top_k with
  | Except.error e => Except.error e
  | Except.ok segments0 =>
    match (if segments0 = [] ∧ 1 < (pyWords q).length
           then token_word_loop env top_k (pyWords q) segments0
           else Except.ok segments0) with
    | Except.error e => Except.error e
    | Except.ok segs =>
      Except.ok (segs.map (fun s => ⟨s.text, s.start, s.«end», 7/10⟩))

/-- `unified_video_search` (`search_service.py` lines 21-124): Pinecone stage
when configured, falling through to the database stages on index absence or
any Pinecone exception; the outer `try` turns any remaining exception into an
empty result list. -/
def unified_video_search (env : SearchEnv) (q : Str) (top_k : ℕ) : List SearchMatch :=
  let body : Except Str (List SearchMatch) :=
    if env.pineconeConfigured then
      match env.pineconeStage with
      | Except.ok (some results) => Except.ok results
      | Except.ok none => db_search_stage env q top_k
      | Except.error _ => db_search_stage env q top_k
    else db_search_stage env q top_k
  match body with
  | Except.ok r => r
  | Except.error _ => []

/-- The direct `/search` endpoint (`search_routes.py` lines 16-41): calls the
unified search with `top_k=3` and converts each result to a `SearchResult`
with the same fields, confidence included. -/
def search_video (env : SearchEnv) (q : Str) : List SearchMatch :=
  (unified_video_search env q 3).map (fun r => ⟨r.text, r.start_time, r.end_time, r.confidence⟩)

/-- The semantic stage produces no result: Pinecone unconfigured, index
missing, or the Pinecone block raised. -/
def semantic_unavailable (env : SearchEnv) : Prop :=
  env.pineconeConfigured = false ∨ env.pineconeStage = Except.ok none ∨
    ∃ e, env.pineconeStage = Except.error e

/-- A Python exception as seen by the `except` clauses of the embedded
routes: a FastAPI `HTTPException`, a `ValueError`, or any other `Exception`.
All three are caught by `except Exception`. -/
inductive PyExn where
  | http (status : ℕ) (detail : Str)
  | valueErr (msg : Str)
  | exn (msg : Str)
deriving DecidableEq, Repr

structure ProcessingResult where
  success : Bool
  segment_count : ℕ
  window_count : ℕ
deriving DecidableEq, Repr

/-- A row of the `videos` table (`models.py`). -/
structure VideoRec where
  id : Str
  filename : Str
  original_name : Str
  file_path : Str
  file_size : ℕ
  duration : Option ℚ
  status : Str
  video_type : Str
  youtube_id : Option Str
deriving DecidableEq, Repr

/-- Environment of `process_video`: the looked-up video row, the segment rows
already persisted for it, the outcomes of the transcript fetch
(`fetch_youtube_transcript`) and of Whisper processing
(`process_uploaded_video`), and the outcome of the body of
`store_embeddings_in_pinecone`. -/
structure ProcEnv where
  video : Option VideoRec
  existingSegments : List Seg
  fetchOutcome : Except PyExn (List Seg)
  whisperOutcome : Except PyExn (List Seg)
  pineconeBody : Except Str Unit
deriving DecidableEq, Repr

/-- Observable outcome of `process_video`: the video's final status, the
segment rows after the run, the processed segments (when reached), the built
windows (when reached), whether the index store step was attempted, and the
returned value or raised exception. -/
structure ProcOut where
  status : Option Str
  persisted : List Seg
  processed : Option (List Seg)
  windowsBuilt : Option (List Window)
  indexAttempted : Bool
  result : Except PyExn ProcessingResult
deriving DecidableEq, Repr

/-- `store_embeddings_in_pinecone` (`video_service.py` lines 273-321): the
whole body sits in a `try` whose `except` only logs, so no outcome of the
body ever propagates an exception. -/
def store_embeddings_in_pinecone (body : Except Str Unit) : Except PyExn Unit :=
  match body with
  | Except.ok _ => Except.ok ()
  | Except.error _ => Except.ok ()

/-- Segment acquisition of `process_video` (`video_service.py` lines
99-143): for a YouTube video with existing segments, reuse them without
fetching; otherwise fetch the transcript and persist the fetched segments;
for an uploaded video run Whisper and persist its segments. Returns
`(processed segments, segment rows after the step)`. -/
def acquire_segments (env : ProcEnv) (v : VideoRec) :
    Except PyExn (List Seg × List Seg) :=
  if v.video_type = "youtube".data ∧ v.youtube_id ≠ none then
    if 0 < env.existingSegments.length then
      Except.ok (env.existingSegments, env.existingSegments)
    else
      match env.fetchOutcome with
      | Except.ok segs => Except.ok (segs, env.existingSegments ++ segs)
      | Except.error e => Except.error e
  else
    match env.whisperOutcome with
    | Except.ok segs => Except.ok (segs, env.existingSegments ++ segs)
    | Except.error e => Except.error e

/-- `process_video` (`video_service.py` lines 80-188): missing video raises
404; a failure while acquiring segments marks the video `failed` and
re-raises (`HTTPException` as-is, anything else as HTTP 500); otherwise
windows are built, the index store is attempted (its failures are swallowed
inside `store_embeddings_in_pinecone`), and the video becomes `ready`. -/
def process_video (env : ProcEnv) : ProcOut :=
  match env.video with
  | none =>
    ⟨none, env.existingSegments, none, none, false,
      Except.error (PyExn.http 404 "Video not found".data)⟩
  | some v =>
    match acquire_segments env v with
    | Except.error e =>
      ⟨some "failed".data, env.existingSegments, none, none, false,
        match e with
        | PyExn.http s d => Except.error (PyExn.http s d)
        | PyExn.valueErr _ => Except.error (PyExn.http 500 "Video processing failed".data)
        | PyExn.exn _ => Except.error (PyExn.http 500 "Video processing failed".data)⟩
    | Except.ok (processed, rows) =>
      match store_embeddings_in_pinecone env.pineconeBody with
      | Except.ok _ =>
        ⟨some "ready".data, rows, some processed,
          some (create_overlapping_windows processed 10 5), true,
          Except.ok ⟨true, processed.length,
            (create_overlapping_windows processed 10 5).length⟩⟩
      | Except.error _ =>
        ⟨some "failed".data, rows, some processed,
          some (create_overlapping_windows processed 10 5), true,
          Except.error (PyExn.http 500 "Video processing failed".data)⟩

/-- Environment of the third-party transcript strategy
(`fetch_youtube_transcript_via_third_party`): the configured API token, the
HTTP status of the POST, the `Retry-After` header, and the outcome of
parsing the 200-response body into raw spans (lines 284-345, abstracted). -/
structure TPEnv where
  apiToken : Option Str
  status : ℕ
  retryAfter : Option Str
  parsed : Except Str (List Seg)
deriving DecidableEq, Repr

/-- `fetch_youtube_transcript_via_third_party` (`youtube_service.py` lines
252-365): a 429 response raises a distinct retryable `HTTPException` which
the function's own `except HTTPException: raise` preserves; every other
failure is re-raised as a plain wrapped `Exception`; a 200 response is
parsed and smart-segmented. -/
def fetch_youtube_transcript_via_third_party (env : TPEnv) : Except PyExn (List Seg) :=
  match env.apiToken with
  | none => Except.error (PyExn.exn "YOUTUBE_TRANSCRIPT_API_TOKEN not configured".data)
  | some _ =>
    let body : Except PyExn (List Seg) :=
      if env.status = 429 then
        Except.error (PyExn.http 429
          ("Rate limit exceeded. Please retry after ".data ++
            (env.retryAfter.getD "10".data) ++ " seconds.".data))
      else if env.status ≠ 200 then
        Except.error (PyExn.exn "API returned non-200 status".data)
      else
        match env.parsed with
        | Except.ok spans => Except.ok (smart_segment_youtube_transcript spans)
        | Except.error m => Except.error (PyExn.exn m)
    match body with
    | Except.ok r => Except.ok r
    | Except.error (PyExn.http s d) => Except.error (PyExn.http s d)
    | Except.error (PyExn.valueErr m) =>
      Except.error (PyExn.exn ("Third-party transcript API failed: ".data ++ m))
    | Except.error (PyExn.exn m) =>
      Except.error (PyExn.exn ("Third-party transcript API failed: ".data ++ m))

/-- Environment of the overall transcript fetch: the third-party strategy's
environment, the configured worker URL, the outcome of the Cloudflare Worker
request (lines 378-397, abstracted), and the outcome of Innertube scraping
before smart segmentation (lines 415-506, abstracted). -/
structure FetchEnv where
  tp : TPEnv
  workerUrl : Option Str
  workerOutcome : Except Str (List Seg)
  innertubeOutcome : Except Str (List Seg)
deriving DecidableEq, Repr

/-- `fetch_youtube_transcript_via_worker` (`youtube_service.py` lines
368-402): worker results are returned as-is; every failure is re-raised as a
plain wrapped `Exception`. -/
def fetch_youtube_transcript_via_worker (env : FetchEnv) : Except PyExn (List Seg) :=
  match env.workerUrl with
  | none => Except.error (PyExn.exn "No Cloudflare Worker URL configured".data)
  | some _ =>
    match env.workerOutcome with
    | Except.ok segs => Except.ok segs
    | Except.error m => Except.error (PyExn.exn ("Cloudflare Worker failed: ".data ++ m))

/-- The user-facing detail chosen by `fetch_youtube_transcript_smart`'s
handler (`youtube_service.py` lines 524-532) from the lowered error text. -/
def innertubeDetail (m : Str) : Str :=
  if containsStr (lowerStr m) "no caption tracks found".data ∨
      containsStr (lowerStr m) "no english captions".data then
    "This YouTube video does not have English captions available.".data
  else if containsStr (lowerStr m) "failed to fetch video page".data then
    "Could not access YouTube video. Video may be private or deleted.".data
  else if containsStr (lowerStr m) "innertube_api_key".data then
    "YouTube API access failed. Please try again later.".data
  else
    ("Could not fetch transcript from YouTube video. " ++
      "Please try again or ensure the video has captions available.").data

/-- `fetch_youtube_transcript_smart` (`youtube_service.py` lines 405-534):
scraped spans are smart-segmented; any failure raises `HTTPException(500)`
with a specific detail. -/
def fetch_youtube_transcript_smart (env : FetchEnv) : Except PyExn (List Seg) :=
  match env.innertubeOutcome with
  | Except.ok raw => Except.ok (smart_segment_youtube_transcript raw)
  | Except.error m => Except.error (PyExn.http 500 (innertubeDetail m))

/-- `fetch_youtube_transcript` (`youtube_service.py` lines 537-582): the
three strategies in order. The first two attempts sit under
`except Exception` (lines 547 and 561), which also catches the 429
`HTTPException`, so every third-party or worker failure falls through; only
the final Innertube attempt re-raises `HTTPException` distinctly. -/
def fetch_youtube_transcript (env : FetchEnv) : Except PyExn (List Seg) :=
  let step3 : Except PyExn (List Seg) :=
    match fetch_youtube_transcript_smart env with
    | Except.ok r => Except.ok r
    | Except.error (PyExn.http s d) => Except.error (PyExn.http s d)
    | Except.error _ =>
      Except.error (PyExn.http 500
        "Could not fetch transcript from YouTube video. Please try again later.".data)
  let step2 : Except PyExn (List Seg) :=
    match env.workerUrl with
    | some _ =>
      match fetch_youtube_transcript_via_worker env with
      | Except.ok r => Except.ok r
      | Except.error _ => step3
    | none => step3
  match env.tp.apiToken with
  | some _ =>
    match fetch_youtube_transcript_via_third_party env.tp with
    | Except.ok r => Except.ok r
    | Except.error _ => step2
  | none => step2

/-- Auxiliary scanner for `pySplitOn`; `acc` is the current piece,
reversed. -/
def pySplitOnGo (sep : Str) : Str → Str → List Str
  | [], acc => [acc.reverse]
  | c :: rest, acc =>
    if h : sep ≠ [] ∧ startsWith sep (c :: rest) = true then
      acc.reverse :: pySplitOnGo sep ((c :: rest).drop sep.length) []
    else pySplitOnGo sep rest (c :: acc)
termination_by s _ => s.length
decreasing_by
  · have h1 : 1 ≤ sep.length := List.length_pos.mpr h.1
    simp only [List.length_drop, List.length_cons]
    omega
  · simp only [List.length_cons]
    omega

/-- Python `s.split(sep)` for a non-empty separator: split at each
left-to-right non-overlapping occurrence. -/
def pySplitOn (sep s : Str) : List Str := pySplitOnGo sep s []

/-- `urllib.parse.parse_qs(query)[key][0]` as used by `extract_youtube_id`:
split the query on `&`, split each pair at its first `=`, drop pairs with no
`=` or an empty value, and take the first value for `key` (`none` models the
`KeyError` when the key is absent; percent-decoding and `+` decoding are not
modelled). -/
def parse_qs_v (query key : Str) : Option Str :=
  ((pySplitOn "&".data query).filterMap (fun pair =>
    match pySplitOn "=".data pair with
    | [] => none
    | [_] => none
    | k :: v1 :: vrest =>
      if pyJoin "=".data (v1 :: vrest) = ([] : Str) then none
      else some (k, pyJoin "=".data (v1 :: vrest)))).find?
        (fun kv => kv.1 == key) |>.map (fun kv => kv.2)

/-- `extract_youtube_id` (`youtube_service.py` lines 11-22): the three URL
shapes; an unrecognized shape raises `ValueError`, a `watch` URL without a
`v` query parameter raises `KeyError` (a plain exception). The fragment is
stripped before the query is read. -/
def extract_youtube_id (url : Str) : Except PyExn Str :=
  if containsStr url "youtu.be/".data then
    Except.ok ((pySplitOn "?".data
      ((pySplitOn "youtu.be/".data url).getD 1 [])).getD 0 [])
  else if containsStr url "youtube.com/watch".data then
    match parse_qs_v ((pySplitOn "#".data
        ((pySplitOn "?".data ((pySplitOn "#".data url).getD 0 [])).getD 1 [])).getD 0 [])
        "v".data with
    | some v => Except.ok v
    | none => Except.error (PyExn.exn "KeyError: v".data)
  else if containsStr url "youtube.com/embed/".data then
    Except.ok ((pySplitOn "?".data
      ((pySplitOn "youtube.com/embed/".data url).getD 1 [])).getD 0 [])
  else Except.error (PyExn.valueErr "Invalid YouTube URL format".data)

/-- Environment of `upload_youtube_video`: the video table, the duration and
title returned by `get_youtube_video_info` (which never raises — it catches
internally), the id the database assigns on insert, the outcome of
`process_video`, and the video's status after processing. -/
structure UploadEnv where
  db : List VideoRec
  infoDuration : Option ℚ
  infoTitle : Str
  newId : Str
  processOutcome : Except PyExn Unit
  statusAfterProcess : Str
deriving DecidableEq, Repr

/-- Observable outcome of `upload_youtube_video`: the response or raised
HTTP error, the video table afterwards, whether video info was fetched, and
whether transcript processing ran. -/
structure UploadOut where
  result : Except PyExn VideoRec
  db : List VideoRec
  infoFetched : Bool
  processInvoked : Bool
deriving DecidableEq, Repr

/-- The existing-video lookup of `youtube_routes.py` lines 29-32. -/
def findExistingYouTube (db : List VideoRec) (yid : Str) : Option VideoRec :=
  db.find? (fun r => r.youtube_id == some yid && r.video_type == "youtube".data)

/-- `upload_youtube_video` (`youtube_routes.py` lines 15-84): extract the id
(ValueError becomes HTTP 400, other errors HTTP 500); return any existing
YouTube record unchanged without fetching info or processing; otherwise
fetch info, enforce the 3-minute limit (HTTP 400, formatted duration message
abbreviated), insert the record and process it, re-raising `HTTPException`
as-is and wrapping other processing errors as HTTP 500. -/
def upload_youtube_video (env : UploadEnv) (url : Str) : UploadOut :=
  match extract_youtube_id url with
  | Except.error (PyExn.valueErr m) =>
    ⟨Except.error (PyExn.http 400 m), env.db, false, false⟩
  | Except.error (PyExn.http s d) =>
    ⟨Except.error (PyExn.http s d), env.db, false, false⟩
  | Except.error (PyExn.exn m) =>
    ⟨Except.error (PyExn.http 500 ("Failed to process YouTube video: ".data ++ m)),
      env.db, false, false⟩
  | Except.ok youtube_id =>
    match findExistingYouTube env.db youtube_id with
    | some existing => ⟨Except.ok existing, env.db, false, false⟩
    | none =>
      if (match env.infoDuration with
          | some d => decide ((180 : ℚ) < d)
          | none => false) = true then
        ⟨Except.error (PyExn.http 400
          "YouTube video too long. Please use videos under 3 minutes.".data),
          env.db, true, false⟩
      else
        match env.processOutcome with
        | Except.ok _ =>
          ⟨Except.ok (mkRecord env youtube_id), env.db ++ [mkRecord env youtube_id],
            true, true⟩
        | Except.error (PyExn.http s d) =>
          ⟨Except.error (PyExn.http s d), env.db ++ [mkRecord env youtube_id],
            true, true⟩
        | Except.error (PyExn.valueErr m) =>
          ⟨Except.error (PyExn.http 400 m), env.db ++ [mkRecord env youtube_id],
            true, true⟩
        | Except.error (PyExn.exn m) =>
          ⟨Except.error (PyExn.http 500 ("Failed to process YouTube video: ".data ++ m)),
            env.db ++ [mkRecord env youtube_id], true, true⟩
where
  /-- The inserted video row (`youtube_routes.py` lines 51-60), with the
  status it carries after processing and refresh. -/
  mkRecord (env : UploadEnv) (youtube_id : Str) : VideoRec :=
    ⟨env.newId, "youtube-".data ++ youtube_id, env.infoTitle.take 100,
      "youtube://".data ++ youtube_id, 0, env.infoDuration,
      env.statusAfterProcess, "youtube".data, some youtube_id⟩

/-- Concrete inputs for the Claim C5 witness: a YouTube video whose
transcript fetch succeeds while the Pinecone store body fails. -/
def procRec : VideoRec :=
  ⟨"v1".data, "youtube-abc".data, "t".data, "youtube://abc".data, 0, none,
    "processing".data, "youtube".data, some "abc".data⟩

def procEnv : ProcEnv :=
  ⟨some procRec, [], Except.ok [⟨"hi".data, 0, 2⟩],
    Except.error (PyExn.exn "whisper unused".data), Except.error "pinecone down".data⟩

/-- Concrete input for the Claim C6 witness: Pinecone raises and the
database is down. -/
def sfEnv : SearchEnv :=
  ⟨true, Except.error "pinecone boom".data, false, [⟨"hello".data, 0, 1⟩]⟩

/-- Concrete input for the Claim C7 witness: the spec's scenario — the query
`"fine today"` matches no segment exactly, but its two tokens match
separately. -/
def tfEnv : SearchEnv :=
  ⟨false, Except.ok none, true,
    [⟨"How are you today".data, 1, 2⟩, ⟨"I am fine.".data, (5 : ℚ)/2, (7 : ℚ)/2⟩]⟩

/-- Concrete failing input for Claim C8: the third-party API is configured
and answers HTTP 429 while the Cloudflare Worker is configured and
succeeds. -/
def rateLimitedEnv : FetchEnv :=
  ⟨⟨some "token".data, 429, none, Except.error "unused".data⟩,
    some "https://worker".data, Except.ok [⟨"seg".data, 0, 1⟩],
    Except.error "unused".data⟩

/-- Concrete input for the Claim C9 counterexample and witness: no semantic
index, one segment matching the query. -/
def confEnv : SearchEnv := ⟨false, Except.ok none, true, [⟨"hello world".data, 0, 1⟩]⟩

/-- Concrete inputs for the Claim C10 witness. -/
def dedupRec : VideoRec :=
  ⟨"v1".data, "youtube-abc123".data, "Old title".data, "youtube://abc123".data,
    0, none, "ready".data, "youtube".data, some "abc123".data⟩

def dedupEnv : UploadEnv :=
  ⟨[dedupRec], some 60, "New title".data, "v2".data, Except.ok (), "ready".data⟩

/-! ## Lemmas and claim theorems -/

lemma head?_dropWhile_not (p : Char → Bool) (l : Str) :
    ∀ c, (l.dropWhile p).head? = some c → p c = false := by
  induction l with
  | nil => intro c h; simp [List.dropWhile] at h
  | cons a t ih =>
    intro c h
    rw [List.dropWhile_cons] at h
    split at h
    · exact ih c h
    · next hp =>
      simp only [List.head?_cons, Option.some.injEq] at h
      subst h
      exact Bool.not_eq_true _ ▸ (by simpa using hp)

lemma dropWhile_eq_self_of_head (p : Char → Bool) (l : Str)
    (h : ∀ c, l.head? = some c → p c = false) : l.dropWhile p = l := by
  cases l with
  | nil => rfl
  | cons a t =>
    rw [List.dropWhile_cons, h a rfl]
    simp

lemma mem_dropWhile_of_not (p : Char → Bool) {l : Str} {c : Char}
    (hc : c ∈ l) (hp : p c = false) : c ∈ l.dropWhile p := by
  have hsplit : l.takeWhile p ++ l.dropWhile p = l := List.takeWhile_append_dropWhile ..
  rw [← hsplit] at hc
  rcases List.mem_append.mp hc with h | h
  · have := List.mem_takeWhile_imp h
    rw [hp] at this
    exact absurd this (by simp)
  · exact h

lemma mem_pyStrip {s : Str} {c : Char} (hc : c ∈ s)
    (hp : c.isWhitespace = false) : c ∈ pyStrip s := by
  unfold pyStrip
  rw [List.mem_reverse]
  apply mem_dropWhile_of_not _ _ hp
  rw [List.mem_reverse]
  exact mem_dropWhile_of_not _ hc hp

lemma pyStrip_eq_nil {s : Str} (h : ∀ c ∈ s, c.isWhitespace = true) :
    pyStrip s = [] := by
  unfold pyStrip
  rw [List.dropWhile_eq_nil_iff.mpr h]
  rfl

lemma exists_not_ws_of_pyStrip_ne_nil {s : Str} (h : pyStrip s ≠ []) :
    ∃ c ∈ s, c.isWhitespace = false := by
  by_contra hall
  push_neg at hall
  exact h (pyStrip_eq_nil (fun c hc => by simpa using hall c hc))

lemma pyStrip_getLast_not_ws {s : Str} {c : Char}
    (h : (pyStrip s).getLast? = some c) : c.isWhitespace = false := by
  unfold pyStrip at h
  rw [List.getLast?_reverse] at h
  exact head?_dropWhile_not _ _ _ h

lemma pyStrip_head_not_ws {s : Str} {c : Char}
    (h : (pyStrip s).head? = some c) : c.isWhitespace = false := by
  unfold pyStrip at h
  rw [List.head?_reverse] at h
  have hsuf : List.dropWhile Char.isWhitespace ((s.dropWhile Char.isWhitespace).reverse)
      <:+ (s.dropWhile Char.isWhitespace).reverse := List.dropWhile_suffix _
  obtain ⟨t, ht⟩ := hsuf
  have h2 : ((s.dropWhile Char.isWhitespace).reverse).getLast? = some c := by
    rw [← ht, List.getLast?_append, h]
    rfl
  rw [List.getLast?_reverse] at h2
  exact head?_dropWhile_not _ _ _ h2

lemma pyStrip_eq_self {s : Str}
    (h1 : ∀ c, s.head? = some c → c.isWhitespace = false)
    (h2 : ∀ c, s.getLast? = some c → c.isWhitespace = false) : pyStrip s = s := by
  unfold pyStrip
  rw [dropWhile_eq_self_of_head _ _ h1]
  rw [dropWhile_eq_self_of_head _ _ (fun c hc => h2 c (by rwa [List.head?_reverse] at hc))]
  exact List.reverse_reverse s

lemma pyStrip_idem (s : Str) : pyStrip (pyStrip s) = pyStrip s := by
  by_cases h : pyStrip s = []
  · rw [h]; rfl
  · exact pyStrip_eq_self (fun c hc => pyStrip_head_not_ws hc)
      (fun c hc => pyStrip_getLast_not_ws hc)

lemma pyStrip_cons_ws {c : Char} (s : Str) (h : c.isWhitespace = true) :
    pyStrip (c :: s) = pyStrip s := by
  unfold pyStrip
  rw [List.dropWhile_cons, h]
  simp

lemma mem_intersperse_of_mem (sep : Str) :
    ∀ (l : List Str) (x : Str), x ∈ l → x ∈ l.intersperse sep := by
  intro l
  induction l with
  | nil => intro x hx; simp at hx
  | cons a t ih =>
    intro x hx
    cases t with
    | nil => simpa using hx
    | cons b t' =>
      rw [List.intersperse_cons₂]
      rcases List.mem_cons.mp hx with h | h
      · exact h ▸ List.mem_cons_self ..
      · exact List.mem_cons_of_mem _ (List.mem_cons_of_mem _ (ih x h))

lemma mem_pyJoin {sep : Str} {parts : List Str} {x : Str} {c : Char}
    (hx : x ∈ parts) (hc : c ∈ x) : c ∈ pyJoin sep parts := by
  unfold pyJoin
  exact List.mem_join.mpr ⟨x, mem_intersperse_of_mem sep parts x hx, hc⟩

lemma pyJoin_length (sep : Str) :
    ∀ parts : List Str, parts ≠ [] →
      (pyJoin sep parts).length =
        (parts.map List.length).sum + sep.length * (parts.length - 1) := by
  intro parts
  induction parts with
  | nil => intro h; exact absurd rfl h
  | cons x t ih =>
    intro _
    cases t with
    | nil => simp [pyJoin]
    | cons y t' =>
      have hxt : pyJoin sep (x :: y :: t') = x ++ sep ++ pyJoin sep (y :: t') := by
        unfold pyJoin
        rw [List.intersperse_cons₂]
        simp [List.join]
      rw [hxt]
      have h2 := ih (by simp)
      simp only [List.length_append, h2, List.map_cons, List.sum_cons,
        List.length_cons, Nat.succ_sub_one, Nat.mul_add, Nat.mul_one]
      omega

/-- Claim C1: for every non-empty list of spans, the Adaptive Segmenter applies
Splitting exactly when the span count is 1 or the average span duration exceeds
30 seconds; otherwise it applies Grouping exactly when the average span
duration is below 5 seconds; otherwise it returns the input spans unchanged.
An empty input list yields an empty output list. -/
theorem adaptive_strategy_selection :
    smart_segment_youtube_transcript [] = [] ∧
    ∀ l : List Seg, l ≠ [] →
      smart_segment_youtube_transcript l =
        (if l.length = 1 ∨ 30 < avg_duration l then split_large_segments l
         else if avg_duration l < 5 then group_small_segments l
         else l) := by
  refine ⟨rfl, fun l hl => ?_⟩
  simp only [smart_segment_youtube_transcript, hl, if_false, gt_iff_lt]

/-- Witness for Claim C1 at a concrete two-span input. -/
theorem adaptive_strategy_selection_witness :
    selW ≠ [] ∧
    smart_segment_youtube_transcript selW =
      (if selW.length = 1 ∨ 30 < avg_duration selW then split_large_segments selW
       else if avg_duration selW < 5 then group_small_segments selW
       else selW) :=
  ⟨by decide, adaptive_strategy_selection.2 selW (by decide)⟩

/-- Counterexample to Claim C2 as stated: for `gapSegs`, the instant 12 lies
in `[min(segment.start), max(segment.end))` but inside no emitted window, so
the emitted windows do not jointly cover that interval. -/
theorem window_coverage_counterexample :
    (∃ s ∈ gapSegs, s.start ≤ 12) ∧ (∃ s ∈ gapSegs, (12 : ℚ) < s.«end») ∧
    ∀ w ∈ create_overlapping_windows gapSegs 10 5,
      ¬(w.start_time ≤ 12 ∧ (12 : ℚ) < w.end_time) := by
  decide

lemma le_foldl_max (l : List ℚ) : ∀ b : ℚ, b ≤ l.foldl max b := by
  induction l with
  | nil => intro b; exact le_refl b
  | cons x t ih =>
    intro b
    exact le_trans (le_max_left b x) (ih (max b x))

lemma mem_le_foldl_max (l : List ℚ) : ∀ (b x : ℚ), x ∈ l → x ≤ l.foldl max b := by
  induction l with
  | nil => intro b x hx; simp at hx
  | cons y t ih =>
    intro b x hx
    rcases List.mem_cons.mp hx with h | h
    · subst h
      exact le_trans (le_max_right b x) (le_foldl_max t (max b x))
    · exact ih (max b y) x h

lemma end_le_maxEnd {l : List Seg} {s : Seg} (h : s ∈ l) : s.«end» ≤ maxEnd l := by
  cases l with
  | nil => simp at h
  | cons hd t =>
    rcases List.mem_cons.mp h with h' | h'
    · subst h'
      exact le_foldl_max _ _
    · exact mem_le_foldl_max _ _ _ (List.mem_map_of_mem _ h')

lemma lt_windowIters_iff {lastEnd : ℚ} {k : ℕ} :
    k < windowIters lastEnd 5 ↔ (5 * k : ℚ) < lastEnd := by
  unfold windowIters
  rw [if_pos (by norm_num : (0 : ℚ) < 5)]
  rw [Int.lt_toNat, Int.lt_ceil]
  rw [lt_div_iff (by norm_num : (0 : ℚ) < 5)]
  push_cast
  constructor <;> intro h <;> linarith

lemma windowAt_fields {segments : List Seg} {ws lastEnd cur : ℚ} {w : Window}
    (h : windowAt segments ws lastEnd cur = some w) :
    w.start_time = cur ∧ w.end_time = min (cur + ws) lastEnd ∧ w.text ≠ [] := by
  simp only [windowAt] at h
  split at h
  · split at h
    · next hne =>
      cases h
      exact ⟨rfl, rfl, hne⟩
    · exact absurd h (by simp)
  · exact absurd h (by simp)

lemma windowAt_emits (lastEnd : ℚ) {segments : List Seg} {ws cur : ℚ} {s : Seg}
    (hs : s ∈ segments) (hov : overlapsWindow cur (cur + ws) s = true)
    (hne : ∃ ch ∈ s.text, ch.isWhitespace = false) :
    ∃ w, windowAt segments ws lastEnd cur = some w ∧
      w.start_time = cur ∧ w.end_time = min (cur + ws) lastEnd := by
  obtain ⟨ch, hch, hchw⟩ := hne
  have hmemF : s ∈ segments.filter (overlapsWindow cur (cur + ws)) :=
    List.mem_filter.mpr ⟨hs, hov⟩
  have hF : segments.filter (overlapsWindow cur (cur + ws)) ≠ [] :=
    List.ne_nil_of_mem hmemF
  have hchj : ch ∈ pyJoin [' ']
      ((segments.filter (overlapsWindow cur (cur + ws))).map (fun t => pyStrip t.text)) :=
    mem_pyJoin (List.mem_map_of_mem _ hmemF) (mem_pyStrip hch hchw)
  have hcomb : pyStrip (pyJoin [' ']
      ((segments.filter (overlapsWindow cur (cur + ws))).map (fun t => pyStrip t.text))) ≠ [] :=
    List.ne_nil_of_mem (mem_pyStrip hchj hchw)
  have heq : windowAt segments ws lastEnd cur = some
      ⟨pyStrip (pyJoin [' ']
        ((segments.filter (overlapsWindow cur (cur + ws))).map (fun t => pyStrip t.text))),
       cur, min (cur + ws) lastEnd⟩ := by
    simp only [windowAt]
    rw [if_pos hF, if_pos hcomb]
  exact ⟨_, heq, rfl, rfl⟩

/-- Claim C2 (amended): an empty segment list yields no windows; each emitted
window starts at a multiple of the 5-second stride beginning at 0, has
non-empty text, has width at most 10 seconds, and has its end clipped so it
never exceeds the maximum segment end; and the emitted windows jointly cover
every instant that lies inside some segment whose stripped text is non-blank
(full coverage of `[min(start), max(end))` fails when consecutive segments
are separated by a gap wider than the window, see the counterexample). -/
theorem window_builder_bounds_coverage (segments : List Seg)
    (h0 : ∀ s ∈ segments, 0 ≤ s.start) :
    create_overlapping_windows [] 10 5 = [] ∧
    (∀ w ∈ create_overlapping_windows segments 10 5,
      (∃ k : ℕ, w.start_time = 5 * k) ∧
      w.text ≠ [] ∧
      w.end_time ≤ maxEnd segments ∧
      w.end_time - w.start_time ≤ 10) ∧
    (∀ s ∈ segments, pyStrip s.text ≠ [] →
      ∀ t : ℚ, s.start ≤ t → t < s.«end» →
        ∃ w ∈ create_overlapping_windows segments 10 5,
          w.start_time ≤ t ∧ t < w.end_time) := by
  refine ⟨rfl, ?_, ?_⟩
  · intro w hw
    by_cases hseg : segments = []
    · subst hseg; simp [create_overlapping_windows] at hw
    · rw [create_overlapping_windows, if_neg hseg] at hw
      obtain ⟨k, _, hwk⟩ := List.mem_filterMap.mp hw
      obtain ⟨hst, hen, htext⟩ := windowAt_fields hwk
      refine ⟨⟨k, hst⟩, htext, ?_, ?_⟩
      · rw [hen]; exact min_le_right _ _
      · rw [hen, hst]
        have : min (5 * (k : ℚ) + 10) (maxEnd segments) ≤ 5 * (k : ℚ) + 10 :=
          min_le_left _ _
        linarith
  · intro s hs hstrip t hts hte
    have hseg : segments ≠ [] := List.ne_nil_of_mem hs
    have ht0 : (0 : ℚ) ≤ t := le_trans (h0 s hs) hts
    have htle : t < maxEnd segments := lt_of_lt_of_le hte (end_le_maxEnd hs)
    -- the loop iteration containing t
    set K : ℕ := (⌊t / 5⌋).toNat with hK
    have hKz : ((K : ℤ) : ℚ) = ((⌊t / 5⌋ : ℤ) : ℚ) := by
      rw [hK, Int.toNat_of_nonneg (Int.floor_nonneg.mpr (by positivity))]
    have hKle : (5 : ℚ) * K ≤ t := by
      have h1 : ((⌊t / 5⌋ : ℤ) : ℚ) ≤ t / 5 := Int.floor_le _
      rw [← hKz] at h1
      have h2 := (le_div_iff (by norm_num : (0 : ℚ) < 5)).mp h1
      push_cast at h2 ⊢
      linarith
    have hKgt : t < 5 * (K : ℚ) + 5 := by
      have h1 : t / 5 < ((⌊t / 5⌋ : ℤ) : ℚ) + 1 := Int.lt_floor_add_one _
      rw [← hKz] at h1
      have h2 := (div_lt_iff (by norm_num : (0 : ℚ) < 5)).mp h1
      push_cast at h2 ⊢
      linarith
    have hov : overlapsWindow (5 * K) (5 * K + 10) s = true := by
      unfold overlapsWindow
      rw [decide_eq_true_iff]
      by_cases h1 : 5 * (K : ℚ) ≤ s.start
      · exact Or.inl ⟨h1, by linarith⟩
      · push_neg at h1
        by_cases h2 : s.«end» ≤ 5 * (K : ℚ) + 10
        · exact Or.inr (Or.inl ⟨by linarith, h2⟩)
        · push_neg at h2
          exact Or.inr (Or.inr ⟨h1, h2⟩)
    have hnonws : ∃ ch ∈ s.text, ch.isWhitespace = false :=
      exists_not_ws_of_pyStrip_ne_nil hstrip
    obtain ⟨w, hwsome, hwst, hwen⟩ :=
      windowAt_emits (maxEnd segments) hs hov hnonws
    refine ⟨w, ?_, ?_, ?_⟩
    · rw [create_overlapping_windows, if_neg hseg]
      refine List.mem_filterMap.mpr ⟨K, List.mem_range.mpr ?_, hwsome⟩
      exact lt_windowIters_iff.mpr (lt_of_le_of_lt hKle htle)
    · rw [hwst]; exact hKle
    · rw [hwen]
      exact lt_min (by linarith) htle

/-- Witness for Claim C2 at a concrete input: the instant 11s inside the
single segment `[0, 12)` is covered by an emitted window. -/
theorem window_builder_bounds_coverage_witness :
    ∃ w ∈ create_overlapping_windows covSegs 10 5,
      w.start_time ≤ 11 ∧ (11 : ℚ) < w.end_time :=
  (window_builder_bounds_coverage covSegs (by decide)).2.2
    ⟨"hi".data, 0, 12⟩ (by decide) (by decide) 11 (by decide) (by decide)

lemma chain1s_sum (l : List Seg) : ∀ p : ℚ, chain1s p l →
    (l.map (fun s => s.«end» - s.start)).sum = l.length := by
  induction l with
  | nil => simp
  | cons seg rest ih =>
    intro p h
    obtain ⟨h1, h2, _, _, h5⟩ := h
    simp only [List.map_cons, List.sum_cons, List.length_cons, ih (p + 1) h5, h1, h2]
    push_cast
    ring

lemma groupLoop_cons_nonblank {seg : Seg} {rest : List Seg} {parts : List Str}
    {gstart : Option ℚ} (h : pyStrip seg.text ≠ []) :
    groupLoop (seg :: rest) parts gstart =
      if (5 ≤ seg.«end» - gstart.getD seg.start ∧
            (sentenceEnd (pyStrip seg.text) = true ∨
             10 ≤ seg.«end» - gstart.getD seg.start ∨
             gapBreak seg rest = true)) ∨
          15 ≤ seg.«end» - gstart.getD seg.start ∨ rest = [] then
        ⟨pyJoin [' '] (parts ++ [pyStrip seg.text]), gstart.getD seg.start, seg.«end»⟩ ::
          groupLoop rest [] none
      else groupLoop rest (parts ++ [pyStrip seg.text]) (some (gstart.getD seg.start)) := by
  simp only [groupLoop]
  rw [if_neg (by simpa using h)]

lemma groupLoop_1s (l : List Seg) : ∀ (p : ℚ), chain1s p l →
    ∀ (parts : List Str) (gstart : Option ℚ), groupState p parts gstart →
      (∀ g ∈ groupLoop l parts gstart, 1 ≤ g.«end» - g.start ∧ g.«end» - g.start ≤ 10) ∧
      (∀ i g, i + 1 < (groupLoop l parts gstart).length →
        (groupLoop l parts gstart).get? i = some g → g.«end» - g.start = 10) := by
  induction l with
  | nil =>
    intro p _ parts gstart _
    refine ⟨fun g hg => ?_, fun i g hi _ => ?_⟩
    · simp [groupLoop] at hg
    · simp [groupLoop] at hi
  | cons seg rest ih =>
    intro p hc parts gstart hst
    obtain ⟨hstart, hend, htext, hpunct, hcrest⟩ := hc
    rw [groupLoop_cons_nonblank htext]
    -- the gap to the next span is zero, so the pause break never fires
    have hgap : gapBreak seg rest = false := by
      cases rest with
      | nil => rfl
      | cons next rest' =>
        have hnext : next.start = p + 1 := hcrest.1
        simp only [gapBreak, decide_eq_false_iff_not, not_lt, hnext, hend]
        norm_num
    -- the current span's duration from the group start
    obtain ⟨s0, hs0, n, hn, h1n, h9n⟩ :
        ∃ s0, gstart.getD seg.start = s0 ∧
          ∃ n : ℕ, seg.«end» - s0 = ((n : ℚ) + 1) ∧ 0 ≤ n ∧ n ≤ 9 := by
      cases gstart with
      | none =>
        exact ⟨seg.start, rfl, 0, by rw [hend, hstart]; push_cast; ring, le_refl 0,
          by norm_num⟩
      | some s0 =>
        obtain ⟨-, m, hm, h1m, h9m⟩ := hst
        exact ⟨s0, rfl, m, by rw [hend]; linarith, Nat.zero_le m, h9m⟩
    rw [hs0, hn, hpunct, hgap]
    simp only [Bool.false_eq_true, false_or, or_false]
    have h0n : (0 : ℚ) ≤ (n : ℚ) := Nat.cast_nonneg n
    have hd10 : ((n : ℚ) + 1) ≤ 10 := by
      have : (n : ℚ) ≤ 9 := by exact_mod_cast h9n
      linarith
    have hd15 : ¬(15 ≤ ((n : ℚ) + 1)) := by intro h; linarith
    by_cases hfin : (5 ≤ ((n : ℚ) + 1) ∧ 10 ≤ ((n : ℚ) + 1)) ∨
        15 ≤ ((n : ℚ) + 1) ∨ rest = []
    · rw [if_pos hfin]
      have htail := ih (p + 1) hcrest [] none rfl
      refine ⟨fun g hg => ?_, fun i g hi hgi => ?_⟩
      · rcases List.mem_cons.mp hg with h | h
        · subst h
          exact ⟨by simp only [hn]; linarith, by simp only [hn]; exact hd10⟩
        · exact htail.1 g h
      · cases i with
        | zero =>
          simp only [List.get?_cons_zero, Option.some.injEq] at hgi
          subst hgi
          -- the emitted group is not the last one, so `rest` is non-empty and
          -- the finalization was forced by the 10-second rule
          have hrest : rest ≠ [] := by
            intro hr
            subst hr
            simp [groupLoop] at hi
          have h10 : 10 ≤ ((n : ℚ) + 1) := by
            rcases hfin with ⟨_, h⟩ | h | h
            · exact h
            · exact absurd h hd15
            · exact absurd h hrest
          simp only [hn]
          linarith
        | succ j =>
          simp only [List.get?_cons_succ] at hgi
          simp only [List.length_cons] at hi
          exact htail.2 j g (by omega) hgi
    · rw [if_neg hfin]
      push_neg at hfin
      obtain ⟨hfin1, -, hrest⟩ := hfin
      have h10 : ¬(10 ≤ ((n : ℚ) + 1)) := by
        intro h
        have := hfin1 (by linarith)
        linarith
      apply ih (p + 1) hcrest
      refine ⟨by simp, n + 1, ?_, by omega, ?_⟩
      · push_cast
        linarith
      · -- the group stayed open, so it is at most 9 seconds old
        by_contra h9
        push_neg at h9
        have : (10 : ℚ) ≤ (n : ℚ) + 1 := by
          have h9' : (10 : ℕ) ≤ n + 1 := h9
          exact_mod_cast h9'
        exact h10 this

/-- Claim C3 (amended): for every input of gapless one-second spans with
non-blank text not ending in sentence punctuation (at least two spans, so the
Grouping strategy applies), every group emitted by the Adaptive Segmenter has
duration at most 15 seconds, and every group except the last has duration at
least 10 seconds (the forced cutoff); the final group keeps only the
remainder and may be shorter than 10 seconds. -/
theorem grouping_duration_bounds (l : List Seg) (p : ℚ)
    (hc : chain1s p l) (hlen : 2 ≤ l.length) :
    (∀ g ∈ smart_segment_youtube_transcript l, g.«end» - g.start ≤ 15) ∧
    (∀ i g, i + 1 < (smart_segment_youtube_transcript l).length →
      (smart_segment_youtube_transcript l).get? i = some g →
        10 ≤ g.«end» - g.start) := by
  have hne : l ≠ [] := by
    cases l
    · simp at hlen
    · simp
  have hlen0 : (l.length : ℚ) ≠ 0 := by
    rw [Nat.cast_ne_zero]
    omega
  have havg : avg_duration l = 1 := by
    unfold avg_duration
    rw [chain1s_sum l p hc]
    field_simp
  have hdisp : smart_segment_youtube_transcript l = group_small_segments l := by
    rw [smart_segment_youtube_transcript, if_neg hne, if_neg, if_pos]
    · rw [havg]; norm_num
    · rw [havg]
      push_neg
      refine ⟨by omega, by norm_num⟩
  obtain ⟨hall, hidx⟩ := groupLoop_1s l p hc [] none rfl
  rw [hdisp]
  exact ⟨fun g hg => le_trans (hall g hg).2 (by norm_num),
    fun i g hi hgi => le_of_eq (hidx i g hi hgi).symm⟩

/-- Counterexample to Claim C3 as stated: on eleven one-second spans with no
punctuation and no gaps the Adaptive Segmenter emits a trailing group of
duration 1 second, violating the claimed lower bound of 10 seconds. -/
theorem grouping_duration_counterexample :
    chain1s 0 oneSecSpans ∧ 2 ≤ oneSecSpans.length ∧
    ∃ g ∈ smart_segment_youtube_transcript oneSecSpans, g.«end» - g.start < 10 := by
  decide

/-- Witness for Claim C3 at the eleven-span input. -/
theorem grouping_duration_bounds_witness :
    (∀ g ∈ smart_segment_youtube_transcript oneSecSpans, g.«end» - g.start ≤ 15) ∧
    (∀ i g, i + 1 < (smart_segment_youtube_transcript oneSecSpans).length →
      (smart_segment_youtube_transcript oneSecSpans).get? i = some g →
        10 ≤ g.«end» - g.start) :=
  grouping_duration_bounds oneSecSpans 0 (by decide) (by decide)

lemma getLast?_mem {α : Type} {l : List α} {a : α} (h : l.getLast? = some a) :
    a ∈ l := by
  obtain ⟨hne, rfl⟩ := List.mem_getLast?_eq_getLast (Option.mem_def.mpr h)
  exact List.getLast_mem hne

lemma pyWords_sound (s : Str) :
    ∀ w ∈ pyWords s, w ≠ [] ∧ ∀ c ∈ w, c.isWhitespace = false := by
  induction s using pyWords.induct with
  | case1 =>
    intro w hw
    simp [pyWords] at hw
  | case2 c rest hws ih =>
    intro w hw
    rw [pyWords, if_pos hws] at hw
    exact ih w hw
  | case3 c rest hws ih =>
    intro w hw
    rw [pyWords, if_neg hws] at hw
    rcases List.mem_cons.mp hw with h | h
    · subst h
      refine ⟨by simp, fun ch hch => ?_⟩
      rcases List.mem_cons.mp hch with h' | h'
      · subst h'
        simpa using hws
      · simpa using List.mem_takeWhile_imp h'
    · exact ih w h

lemma chunksOf_sound {α : Type} (k : ℕ) (l : List α) :
    ∀ c ∈ chunksOf k l, c ≠ [] ∧ c.length ≤ max 1 k ∧ ∀ x ∈ c, x ∈ l := by
  induction l using chunksOf.induct k with
  | case1 =>
    intro c hc
    simp [chunksOf] at hc
  | case2 a l ih =>
    intro c hc
    rw [chunksOf] at hc
    rcases List.mem_cons.mp hc with h | h
    · subst h
      refine ⟨by simp, ?_, fun x hx => ?_⟩
      · simp only [List.length_cons]
        have := l.length_take_le (k - 1)
        omega
      · rcases List.mem_cons.mp hx with h' | h'
        · subst h'; exact List.mem_cons_self ..
        · exact List.mem_cons_of_mem _ (List.mem_of_mem_take h')
    · obtain ⟨h1, h2, h3⟩ := ih c h
      exact ⟨h1, h2, fun x hx => List.mem_cons_of_mem _ (List.mem_of_mem_drop (h3 x hx))⟩

lemma sum_jlen_chunksOf (k : ℕ) (l : List Str) :
    ((chunksOf k l).map (fun c => (pyJoin [' '] c).length + 1)).sum =
      (l.map List.length).sum + l.length := by
  induction l using chunksOf.induct k with
  | case1 => simp [chunksOf]
  | case2 a l ih =>
    rw [chunksOf]
    simp only [List.map_cons, List.sum_cons, ih]
    have hne : (a :: l.take (k - 1)) ≠ [] := by simp
    rw [pyJoin_length [' '] _ hne]
    have hsplit : (l.take (k - 1)).map List.length ++ (l.drop (k - 1)).map List.length
        = l.map List.length := by
      rw [← List.map_append, List.take_append_drop]
    have hlen : (l.take (k - 1)).length + (l.drop (k - 1)).length = l.length := by
      rw [← List.length_append, List.take_append_drop]
    have hsum : ((l.take (k - 1)).map List.length).sum
        + ((l.drop (k - 1)).map List.length).sum = (l.map List.length).sum := by
      rw [← List.sum_append, hsplit]
    simp only [List.map_cons, List.sum_cons, List.length_cons, List.length_map,
      List.length_nil, Nat.add_sub_cancel, one_mul, List.sum_nil]
    omega

lemma pyJoin_edges : ∀ (l : List Str), l ≠ [] →
    (∀ w ∈ l, w ≠ [] ∧ ∀ c ∈ w, c.isWhitespace = false) →
    pyJoin [' '] l ≠ [] ∧
    (∀ c, (pyJoin [' '] l).head? = some c → c.isWhitespace = false) ∧
    (∀ c, (pyJoin [' '] l).getLast? = some c → c.isWhitespace = false) := by
  intro l
  induction l with
  | nil => intro h; exact absurd rfl h
  | cons x t ih =>
    intro _ hw
    obtain ⟨hxne, hxw⟩ := hw x (List.mem_cons_self ..)
    cases t with
    | nil =>
      have hx : pyJoin [' '] [x] = x := by simp [pyJoin]
      rw [hx]
      exact ⟨hxne, fun c hc => hxw c (List.mem_of_mem_head? hc),
        fun c hc => hxw c (getLast?_mem hc)⟩
    | cons y t' =>
      have hxt : pyJoin [' '] (x :: y :: t') = x ++ ' ' :: pyJoin [' '] (y :: t') := by
        unfold pyJoin
        rw [List.intersperse_cons₂]
        simp [List.join]
      obtain ⟨hjne, hjh, hjl⟩ := ih (by simp) (fun w hwm => hw w (List.mem_cons_of_mem _ hwm))
      rw [hxt]
      refine ⟨by simp [hxne], fun c hc => ?_, fun c hc => ?_⟩
      · rw [List.head?_append_of_ne_nil x hxne] at hc
        exact hxw c (List.mem_of_mem_head? hc)
      · rw [List.getLast?_append] at hc
        have hsome : (' ' :: pyJoin [' '] (y :: t')).getLast? =
            (pyJoin [' '] (y :: t')).getLast? := by
          cases hj : pyJoin [' '] (y :: t') with
          | nil => exact absurd hj hjne
          | cons z zs => rw [List.getLast?_cons_cons]
        rw [hsome] at hc
        cases hjlast : (pyJoin [' '] (y :: t')).getLast? with
        | none =>
          have hs := List.getLast?_isSome.mpr hjne
          rw [hjlast] at hs
          simp at hs
        | some z =>
          rw [hjlast] at hc
          simp only [Option.or_some, Option.some.injEq] at hc
          cases hc
          exact hjl _ hjlast

lemma splitSentencesGo_no_punct (s : Str) :
    (∀ c ∈ s, ¬(c = '.' ∨ c = '!' ∨ c = '?')) →
    ∀ acc, splitSentencesGo s acc = [acc.reverse ++ s] := by
  induction s with
  | nil =>
    intro _ acc
    simp [splitSentencesGo]
  | cons c rest ih =>
    intro h acc
    rw [splitSentencesGo, if_neg]
    · rw [ih (fun x hx => h x (List.mem_cons_of_mem _ hx)) (c :: acc)]
      simp
    · intro hcontra
      exact h c (List.mem_cons_self ..) hcontra.1

lemma splitSentences_no_punct {s : Str}
    (h : ∀ c ∈ s, ¬(c = '.' ∨ c = '!' ∨ c = '?')) : splitSentences s = [s] := by
  unfold splitSentences
  rw [splitSentencesGo_no_punct s h []]
  rfl

lemma pyStrip_append_piece {current s : Str} (hcur : pyStrip current = current)
    (hcne : current ≠ []) (hsstrip : pyStrip s = s) (hsne : s ≠ []) :
    pyStrip (current ++ ' ' :: s) = current ++ ' ' :: s := by
  apply pyStrip_eq_self
  · intro c hc
    rw [List.head?_append_of_ne_nil current hcne] at hc
    exact pyStrip_head_not_ws (hcur.symm ▸ hc)
  · intro c hc
    rw [List.getLast?_append] at hc
    have hsome : (' ' :: s).getLast? = s.getLast? := by
      cases s with
      | nil => exact absurd rfl hsne
      | cons z zs => rw [List.getLast?_cons_cons]
    rw [hsome] at hc
    cases hslast : s.getLast? with
    | none =>
      have hs := List.getLast?_isSome.mpr hsne
      rw [hslast] at hs
      simp at hs
    | some z =>
      rw [hslast] at hc
      simp only [Option.or_some, Option.some.injEq] at hc
      cases hc
      exact pyStrip_getLast_not_ws (hsstrip.symm ▸ hslast)

lemma splitLoop_cons_nonblank {tpc segEnd : ℚ} {s : Str} {rest : List Str}
    {current : Str} {curStart : ℚ} (h : pyStrip s ≠ []) :
    splitLoop tpc segEnd (s :: rest) current curStart =
      if current ≠ [] ∧ (current.length > 200 ∨ current.length + 1 + s.length > 400) then
        ⟨pyStrip current, curStart, curStart + (current.length : ℚ) * tpc⟩ ::
          splitLoop tpc segEnd rest s (curStart + (current.length : ℚ) * tpc)
      else splitLoop tpc segEnd rest (pyStrip (current ++ ' ' :: s)) curStart := by
  rw [splitLoop, if_neg h]

/-- Behaviour of `splitLoop` on well-formed pieces: every emitted chunk stays
within 400 characters, the final chunk's end is pinned to the segment end,
the first chunk starts at the running start, adjacent chunks chain with
linearly interpolated ends, and an accumulated text beyond 400 characters
forces at least two chunks. -/
lemma splitLoop_invariants (tpc segEnd : ℚ) :
    ∀ (sents : List Str), (∀ s ∈ sents, goodPiece s) →
      ∀ (current : Str) (curStart : ℚ), pyStrip current = current →
        current.length ≤ 400 →
      (∀ c ∈ splitLoop tpc segEnd sents current curStart, c.text.length ≤ 400) ∧
      (splitLoop tpc segEnd sents current curStart = [] ↔
        (current = [] ∧ sents = [])) ∧
      (∀ c, (splitLoop tpc segEnd sents current curStart).getLast? = some c →
        c.«end» = segEnd) ∧
      (∀ c, (splitLoop tpc segEnd sents current curStart).head? = some c →
        c.start = curStart) ∧
      (∀ i c c', (splitLoop tpc segEnd sents current curStart).get? i = some c →
        (splitLoop tpc segEnd sents current curStart).get? (i + 1) = some c' →
          c.«end» = c.start + (c.text.length : ℚ) * tpc ∧ c'.start = c.«end») ∧
      ((if current = [] then 401 else 400) <
          current.length + (sents.map (fun s => s.length + 1)).sum →
        2 ≤ (splitLoop tpc segEnd sents current curStart).length) := by
  intro sents
  induction sents with
  | nil =>
    intro _ current curStart hstrip hlen
    by_cases hcur : current = []
    · subst hcur
      have hout : splitLoop tpc segEnd [] [] curStart = [] := by
        rw [splitLoop, if_neg (by simp)]
      rw [hout]
      refine ⟨fun c hc => by simp at hc, by simp, fun c hc => by simp at hc,
        fun c hc => by simp at hc, fun i c c' h1 _ => by simp at h1, fun hgt => ?_⟩
      simp at hgt
    · have hout : splitLoop tpc segEnd [] current curStart =
          [⟨pyStrip current, curStart, segEnd⟩] := by
        rw [splitLoop, if_pos hcur]
      rw [hout]
      refine ⟨fun c hc => ?_, ?_, fun c hc => ?_, fun c hc => ?_,
        fun i c c' h1 h2 => ?_, fun hgt => ?_⟩
      · rw [List.mem_singleton.mp hc]
        simpa [hstrip] using hlen
      · simp [hcur]
      · rw [List.getLast?_singleton] at hc
        cases hc
        rfl
      · simp only [List.head?_cons, Option.some.injEq] at hc
        cases hc
        rfl
      · rw [List.get?_cons_succ] at h2
        simp at h2
      · rw [if_neg hcur] at hgt
        simp only [List.map_nil, List.sum_nil, Nat.add_zero] at hgt
        omega
  | cons s rest ih =>
    intro hgood current curStart hstrip hlen
    obtain ⟨hsne, hsstrip, hs399⟩ := hgood s (List.mem_cons_self ..)
    have hsnb : pyStrip s ≠ [] := by rw [hsstrip]; exact hsne
    have hgrest : ∀ x ∈ rest, goodPiece x :=
      fun x hx => hgood x (List.mem_cons_of_mem _ hx)
    rw [splitLoop_cons_nonblank hsnb]
    by_cases hcond : current ≠ [] ∧
        (current.length > 200 ∨ current.length + 1 + s.length > 400)
    · rw [if_pos hcond]
      obtain ⟨ih1, ih2, ih3, ih4, ih5, ih6⟩ :=
        ih hgrest s (curStart + (current.length : ℚ) * tpc) hsstrip (by omega)
      have hout'ne :
          splitLoop tpc segEnd rest s (curStart + (current.length : ℚ) * tpc) ≠ [] := by
        intro h
        exact hsne (ih2.mp h).1
      refine ⟨fun c hc => ?_, ?_, fun c hc => ?_, fun c hc => ?_,
        fun i c c' h1 h2 => ?_, fun _ => ?_⟩
      · rcases List.mem_cons.mp hc with h | h
        · rw [h]
          simpa [hstrip] using hlen
        · exact ih1 c h
      · constructor
        · intro h; simp at h
        · rintro ⟨h1, -⟩; exact absurd h1 hcond.1
      · cases hol : splitLoop tpc segEnd rest s (curStart + (current.length : ℚ) * tpc) with
        | nil => exact absurd hol hout'ne
        | cons z zs =>
          rw [hol, List.getLast?_cons_cons] at hc
          exact ih3 c (by rw [hol]; exact hc)
      · simp only [List.head?_cons, Option.some.injEq] at hc
        cases hc
        rfl
      · cases i with
        | zero =>
          simp only [List.get?_cons_zero, Option.some.injEq] at h1
          rw [List.get?_cons_succ] at h2
          cases hol : splitLoop tpc segEnd rest s (curStart + (current.length : ℚ) * tpc) with
          | nil => rw [hol] at h2; simp at h2
          | cons z zs =>
            rw [hol] at h2
            simp only [List.get?_cons_zero, Option.some.injEq] at h2
            have hc' : c'.start = curStart + (current.length : ℚ) * tpc := by
              apply ih4
              rw [hol, List.head?_cons, h2]
            rw [← h1]
            constructor
            · simp only [hstrip]
            · rw [hc']
        | succ j =>
          rw [List.get?_cons_succ] at h1 h2
          exact ih5 j c c' h1 h2
      · have hpos : 0 < (splitLoop tpc segEnd rest s
            (curStart + (current.length : ℚ) * tpc)).length :=
          List.length_pos.mpr hout'ne
        simp only [List.length_cons]
        omega
    · rw [if_neg hcond]
      push_neg at hcond
      have hceq : current = [] → pyStrip (current ++ ' ' :: s) = s := by
        intro h
        subst h
        rw [List.nil_append, pyStrip_cons_ws s (by decide), hsstrip]
      have hcne' : current ≠ [] → pyStrip (current ++ ' ' :: s) = current ++ ' ' :: s :=
        fun h => pyStrip_append_piece hstrip h hsstrip hsne
      have hc'strip : pyStrip (pyStrip (current ++ ' ' :: s)) =
          pyStrip (current ++ ' ' :: s) := pyStrip_idem _
      have hc'ne : pyStrip (current ++ ' ' :: s) ≠ [] := by
        by_cases hcur : current = []
        · rw [hceq hcur]; exact hsne
        · rw [hcne' hcur]; simp
      have hc'len : (pyStrip (current ++ ' ' :: s)).length ≤ 400 := by
        by_cases hcur : current = []
        · rw [hceq hcur]; omega
        · rw [hcne' hcur]
          simp only [List.length_append, List.length_cons]
          have := (hcond hcur).2
          omega
      obtain ⟨ih1, ih2, ih3, ih4, ih5, ih6⟩ :=
        ih hgrest (pyStrip (current ++ ' ' :: s)) curStart hc'strip hc'len
      refine ⟨ih1, ?_, ih3, ih4, ih5, fun hgt => ?_⟩
      · rw [ih2]
        constructor
        · rintro ⟨h1, -⟩; exact absurd h1 hc'ne
        · rintro ⟨-, h2⟩; simp at h2
      · apply ih6
        rw [if_neg hc'ne]
        simp only [List.map_cons, List.sum_cons] at hgt
        by_cases hcur : current = []
        · rw [if_pos hcur] at hgt
          rw [hceq hcur]
          subst hcur
          simp only [List.length_nil] at hgt ⊢
          omega
        · rw [if_neg hcur] at hgt
          rw [hcne' hcur]
          simp only [List.length_append, List.length_cons]
          omega

/-- Claim C4 (amended): for a single input span of duration 60 seconds with
no sentence-ending punctuation, whose whitespace-separated words each have at
most 19 characters, number at most 157, and joined by single spaces exceed
400 characters, the Splitting algorithm produces more than one chunk, each
chunk's text is at most 400 characters, the final chunk's end timestamp is
exactly the original span's end, and each non-final chunk's end is linearly
interpolated at `duration / len(text)` seconds per character, the next chunk
starting where it ends. (Without such richness conditions a short text yields
a single chunk, see the counterexample.) -/
theorem splitting_output_shape (seg : Seg)
    (hdur : seg.«end» - seg.start = 60)
    (hpunct : ∀ c ∈ seg.text, ¬(c = '.' ∨ c = '!' ∨ c = '?'))
    (hwcount : (pyWords seg.text).length ≤ 157)
    (hwlen : ∀ w ∈ pyWords seg.text, w.length ≤ 19)
    (hbig : 400 < (pyJoin [' '] (pyWords seg.text)).length) :
    2 ≤ (split_large_segments [seg]).length ∧
    (∀ c ∈ split_large_segments [seg], c.text.length ≤ 400) ∧
    (∀ c, (split_large_segments [seg]).getLast? = some c → c.«end» = seg.«end») ∧
    (∀ i c c', (split_large_segments [seg]).get? i = some c →
      (split_large_segments [seg]).get? (i + 1) = some c' →
        c.«end» = c.start + (c.text.length : ℚ) * ((60 : ℚ) / (seg.text.length : ℚ)) ∧
        c'.start = c.«end») := by
  have hwne : pyWords seg.text ≠ [] := by
    intro h
    rw [h] at hbig
    simp [pyJoin] at hbig
  have htne : seg.text ≠ [] := by
    intro h
    apply hwne
    rw [h, pyWords]
  have hwps : max 20 (Int.toNat
      ⌊((pyWords seg.text).length : ℚ) * 8 / (seg.«end» - seg.start)⌋) = 20 := by
    apply Nat.max_eq_left
    rw [Int.toNat_le]
    have hlt : ((pyWords seg.text).length : ℚ) * 8 / (seg.«end» - seg.start) < 21 := by
      rw [hdur, div_lt_iff (by norm_num : (0 : ℚ) < 60)]
      have : ((pyWords seg.text).length : ℚ) ≤ 157 := by exact_mod_cast hwcount
      linarith
    have := Int.floor_lt.mpr (by exact_mod_cast hlt :
      ((pyWords seg.text).length : ℚ) * 8 / (seg.«end» - seg.start) < ((21 : ℤ) : ℚ))
    omega
  have hsl : (splitSentences seg.text).length ≤ 1 := by
    rw [splitSentences_no_punct hpunct]
    simp
  have hEq : split_large_segments [seg] =
      splitLoop ((60 : ℚ) / (seg.text.length : ℚ)) seg.«end»
        ((chunksOf 20 (pyWords seg.text)).map (pyJoin [' '])) [] seg.start := by
    simp only [split_large_segments, List.cons_bind, List.nil_bind, List.append_nil]
    rw [if_neg (by rw [hdur]; norm_num)]
    rw [if_pos hsl, hwps, if_pos htne, hdur]
  have hpieces : ∀ p ∈ (chunksOf 20 (pyWords seg.text)).map (pyJoin [' ']),
      goodPiece p := by
    intro p hp
    obtain ⟨c, hc, rfl⟩ := List.mem_map.mp hp
    obtain ⟨hcne, hclen, hcmem⟩ := chunksOf_sound 20 (pyWords seg.text) c hc
    have hcw : ∀ w ∈ c, w ≠ [] ∧ ∀ ch ∈ w, ch.isWhitespace = false :=
      fun w hw => pyWords_sound seg.text w (hcmem w hw)
    obtain ⟨hjne, hjh, hjl⟩ := pyJoin_edges c hcne hcw
    refine ⟨hjne, pyStrip_eq_self hjh hjl, ?_⟩
    rw [pyJoin_length [' '] c hcne]
    have hsum : (c.map List.length).sum ≤ c.length * 19 := by
      calc (c.map List.length).sum ≤ (c.map List.length).length • 19 := by
            apply List.sum_le_card_nsmul
            intro x hx
            obtain ⟨w, hw, rfl⟩ := List.mem_map.mp hx
            exact hwlen w (hcmem w hw)
        _ = c.length * 19 := by rw [smul_eq_mul, List.length_map]
    have hc20 : c.length ≤ 20 := by simpa using hclen
    simp only [List.length_cons, List.length_nil, Nat.zero_add, one_mul]
    omega
  have hthr : (401 : ℕ) <
      ((((chunksOf 20 (pyWords seg.text)).map (pyJoin [' '])).map
        (fun s => s.length + 1)).sum) := by
    rw [List.map_map]
    have hcomp : ((fun s : Str => s.length + 1) ∘ pyJoin [' ']) =
        (fun c => (pyJoin [' '] c).length + 1) := rfl
    rw [hcomp, sum_jlen_chunksOf]
    rw [pyJoin_length [' '] (pyWords seg.text) hwne] at hbig
    have hn1 : 1 ≤ (pyWords seg.text).length := List.length_pos.mpr hwne
    simp only [List.length_cons, List.length_nil, Nat.zero_add, one_mul] at hbig
    omega
  obtain ⟨p1, p2, p3, p4, p5, p6⟩ :=
    splitLoop_invariants ((60 : ℚ) / (seg.text.length : ℚ)) seg.«end»
      ((chunksOf 20 (pyWords seg.text)).map (pyJoin [' '])) hpieces [] seg.start rfl
      (by simp)
  rw [hEq]
  refine ⟨p6 ?_, p1, p3, p5⟩
  rw [if_pos rfl]
  simpa using hthr

unseal pyWords chunksOf splitSentencesGo in
/-- Counterexample to Claim C4 as stated: `shortSpan` has duration 60 and no
sentence-ending punctuation, yet the Splitting algorithm emits exactly one
chunk, not more than one. -/
theorem splitting_output_shape_counterexample :
    shortSpan.«end» - shortSpan.start = 60 ∧
    (∀ c ∈ shortSpan.text, ¬(c = '.' ∨ c = '!' ∨ c = '?')) ∧
    ¬(2 ≤ (split_large_segments [shortSpan]).length) := by
  decide

set_option maxRecDepth 40000 in
unseal pyWords chunksOf splitSentencesGo in
/-- Witness for Claim C4 at `wideSpan`. -/
theorem splitting_output_shape_witness :
    2 ≤ (split_large_segments [wideSpan]).length ∧
    (∀ c ∈ split_large_segments [wideSpan], c.text.length ≤ 400) ∧
    (∀ c, (split_large_segments [wideSpan]).getLast? = some c →
      c.«end» = wideSpan.«end») ∧
    (∀ i c c', (split_large_segments [wideSpan]).get? i = some c →
      (split_large_segments [wideSpan]).get? (i + 1) = some c' →
        c.«end» = c.start + (c.text.length : ℚ) * ((60 : ℚ) / (wideSpan.text.length : ℚ)) ∧
        c'.start = c.«end») :=
  splitting_output_shape wideSpan (by decide) (by decide) (by decide) (by decide)
    (by decide)

lemma acquire_segments_sub {env : ProcEnv} {v : VideoRec} {ps rows : List Seg}
    (h : acquire_segments env v = Except.ok (ps, rows)) : ∀ s ∈ ps, s ∈ rows := by
  unfold acquire_segments at h
  split at h
  · split at h
    · cases h
      exact fun s hs => hs
    · split at h
      · cases h
        exact fun s hs => List.mem_append_right _ hs
      · cases h
  · split at h
    · cases h
      exact fun s hs => List.mem_append_right _ hs
    · cases h

/-- Claim C5: a video reaches `ready` only with its processed segments
persisted, its windows built from them, and the index store attempted; a
failure inside the index/embedding storage body never changes the outcome
(it is swallowed inside `store_embeddings_in_pinecone`); an error while
acquiring segments moves the video to `failed` with a raised error. -/
theorem processing_state_machine (env : ProcEnv) :
    ((process_video env).status = some "ready".data →
      (process_video env).indexAttempted = true ∧
      ∃ ps, (process_video env).processed = some ps ∧
        (process_video env).windowsBuilt = some (create_overlapping_windows ps 10 5) ∧
        ∀ s ∈ ps, s ∈ (process_video env).persisted) ∧
    (∀ e, process_video
        (ProcEnv.mk env.video env.existingSegments env.fetchOutcome
          env.whisperOutcome (Except.error e)) =
      process_video
        (ProcEnv.mk env.video env.existingSegments env.fetchOutcome
          env.whisperOutcome (Except.ok ()))) ∧
    (∀ v e, env.video = some v → acquire_segments env v = Except.error e →
      (process_video env).status = some "failed".data ∧
      ∃ e', (process_video env).result = Except.error e') := by
  obtain ⟨vid, ex, fo, wo, pb⟩ := env
  refine ⟨?_, ?_, ?_⟩
  · intro hready
    cases vid with
    | none => simp [process_video] at hready
    | some v =>
      simp only [process_video] at hready ⊢
      cases hacq : acquire_segments ⟨some v, ex, fo, wo, pb⟩ v with
      | error e =>
        rw [hacq] at hready
        simp at hready
      | ok pr =>
        obtain ⟨ps, rows⟩ := pr
        cases hst : store_embeddings_in_pinecone pb with
        | ok u =>
          exact ⟨rfl, ps, rfl, rfl, acquire_segments_sub hacq⟩
        | error e =>
          unfold store_embeddings_in_pinecone at hst
          split at hst <;> cases hst
  · intro e
    cases vid with
    | none => rfl
    | some v =>
      simp only [process_video]
      have hsame : acquire_segments ⟨some v, ex, fo, wo, Except.error e⟩ v =
          acquire_segments ⟨some v, ex, fo, wo, Except.ok ()⟩ v := rfl
      rw [hsame]
      cases acquire_segments ⟨some v, ex, fo, wo, Except.ok ()⟩ v with
      | error e' => rfl
      | ok pr => rfl
  · intro v e hv hacq
    cases vid with
    | none => cases hv
    | some v' =>
      cases hv
      simp only [process_video]
      rw [hacq]
      cases e with
      | http s d => exact ⟨rfl, _, rfl⟩
      | valueErr m => exact ⟨rfl, _, rfl⟩
      | exn m => exact ⟨rfl, _, rfl⟩

/-- Witness for Claim C5: with a failing Pinecone store body the video still
reaches `ready` with persisted segments, built windows and an attempted
index store. -/
theorem processing_state_machine_witness :
    (process_video procEnv).indexAttempted = true ∧
    ∃ ps, (process_video procEnv).processed = some ps ∧
      (process_video procEnv).windowsBuilt = some (create_overlapping_windows ps 10 5) ∧
      ∀ s ∈ ps, s ∈ (process_video procEnv).persisted :=
  (processing_state_machine procEnv).1 (by decide)

lemma unified_fallthrough (env : SearchEnv) (q : Str) (k : ℕ)
    (h : semantic_unavailable env) :
    unified_video_search env q k =
      (match db_search_stage env q k with
       | Except.ok r => r
       | Except.error _ => []) := by
  rcases h with hc | hn | ⟨e, he⟩
  · simp only [unified_video_search, hc]
    simp
  · by_cases hc : env.pineconeConfigured
    · simp only [unified_video_search, hc, hn]
      simp
    · simp only [unified_video_search, eq_false_of_ne_true hc]
      simp
  · by_cases hc : env.pineconeConfigured
    · simp only [unified_video_search, hc, he]
      simp
    · simp only [unified_video_search, eq_false_of_ne_true hc]
      simp

/-- Claim C6: the unified search never raises — it is a total function into
result lists; when the semantic stage errors or is not configured it falls
through to the substring stages, and when the database stages fail as well
the result is the empty list. -/
theorem search_failure_semantics (env : SearchEnv) (q : Str) (k : ℕ) :
    (env.pineconeConfigured = false ∨ (∃ e, env.pineconeStage = Except.error e) →
      unified_video_search env q k =
        (match db_search_stage env q k with
         | Except.ok r => r
         | Except.error _ => [])) ∧
    (env.dbOK = false → semantic_unavailable env →
      unified_video_search env q k = []) := by
  refine ⟨fun h => unified_fallthrough env q k ?_, fun hdb h => ?_⟩
  · rcases h with h | h
    · exact Or.inl h
    · exact Or.inr (Or.inr h)
  · rw [unified_fallthrough env q k h]
    have hds : db_search_stage env q k = Except.error "database error".data := by
      simp [db_search_stage, dbLike, hdb]
    rw [hds]

/-- Witness for Claim C6: when every stage fails the search returns the
empty list. -/
theorem search_failure_semantics_witness :
    unified_video_search sfEnv "anything".data 5 = [] :=
  (search_failure_semantics sfEnv "anything".data 5).2 rfl
    (Or.inr (Or.inr ⟨"pinecone boom".data, rfl⟩))

lemma token_word_loop_eq (env : SearchEnv) (k : ℕ) (hdb : env.dbOK = true) :
    ∀ (ws : List Str) (acc : List Seg),
      token_word_loop env k ws acc =
        Except.ok (token_fallback_spec_go env k
          (ws.filter (fun w => decide (3 < w.length))) acc) := by
  intro ws
  induction ws with
  | nil => intro acc; rfl
  | cons w rest ih =>
    intro acc
    by_cases hw : 3 < w.length
    · rw [List.filter_cons_of_pos (by simpa using hw)]
      simp only [token_word_loop, if_pos hw, dbLike, hdb, if_true,
        token_fallback_spec_go]
      split
      · rfl
      · exact ih (acc ++ db_like env.segments w 3)
    · rw [List.filter_cons_of_neg (by simpa using hw)]
      simp only [token_word_loop, if_neg hw]
      exact ih acc

/-- Claim C7: with a reachable database, the token fallback runs exactly
when the exact-substring stage returns zero matches and the query has more
than one whitespace token; when it runs, the produced segments are exactly
those of the claim's loop (`token_fallback_spec`): for each token longer
than 3 characters in original order, a substring match limited to 3 per
token, appended, stopping once the accumulated count reaches `top_k`. -/
theorem token_fallback_stage (env : SearchEnv) (q : Str) (k : ℕ)
    (hdb : env.dbOK = true) :
    (db_like env.segments q k ≠ [] →
      db_search_stage env q k = Except.ok ((db_like env.segments q k).map
        (fun s => ⟨s.text, s.start, s.«end», 7/10⟩))) ∧
    (db_like env.segments q k = [] → (pyWords q).length ≤ 1 →
      db_search_stage env q k = Except.ok []) ∧
    (db_like env.segments q k = [] → 1 < (pyWords q).length →
      db_search_stage env q k = Except.ok ((token_fallback_spec env k (pyWords q)).map
        (fun s => ⟨s.text, s.start, s.«end», 7/10⟩))) := by
  have hex : dbLike env q k = Except.ok (db_like env.segments q k) := by
    simp [dbLike, hdb]
  refine ⟨fun hne => ?_, fun hem hle => ?_, fun hem hgt => ?_⟩
  · simp only [db_search_stage, hex]
    rw [if_neg (fun hcon => hne hcon.1)]
  · simp only [db_search_stage, hex]
    rw [if_neg (fun hcon => by omega)]
    rw [hem]
    rfl
  · simp only [db_search_stage, hex]
    rw [if_pos ⟨hem, hgt⟩, hem, token_word_loop_eq env k hdb]
    rfl

unseal pyWords in
/-- Witness for Claim C7 at the `"fine today"` scenario. -/
theorem token_fallback_stage_witness :
    db_search_stage tfEnv "fine today".data 5 =
      Except.ok ((token_fallback_spec tfEnv 5 (pyWords "fine today".data)).map
        (fun s => ⟨s.text, s.start, s.«end», 7/10⟩)) :=
  (token_fallback_stage tfEnv "fine today".data 5 rfl).2.2 (by decide) (by decide)

/-- Claim C8 (code bug evidence): the third-party strategy itself raises the
distinct retryable 429 `HTTPException`, but the overall
`fetch_youtube_transcript` swallows it in `except Exception` and falls
through to the Cloudflare Worker, returning its segments instead of
surfacing the 429. -/
theorem rate_limit_short_circuit_bug :
    fetch_youtube_transcript_via_third_party rateLimitedEnv.tp =
      Except.error (PyExn.http 429
        "Rate limit exceeded. Please retry after 10 seconds.".data) ∧
    fetch_youtube_transcript rateLimitedEnv = Except.ok [⟨"seg".data, 0, 1⟩] := by
  constructor
  · rfl
  · rfl

lemma db_search_stage_confidence (env : SearchEnv) (q : Str) (k : ℕ) :
    ∀ r, db_search_stage env q k = Except.ok r → ∀ m ∈ r, m.confidence = 7/10 := by
  intro r hr m hm
  unfold db_search_stage at hr
  split at hr
  · cases hr
  · split at hr
    · cases hr
    · cases hr
      obtain ⟨s, -, rfl⟩ := List.mem_map.mp hm
      rfl

/-- Claim C9 (amended): every match produced by the substring stages carries
the flat constant confidence 0.7, both from the unified search function and
from the direct search endpoint, which passes the unified confidence through
unchanged (no 0.8 constant exists on the direct path). -/
theorem substring_confidence (env : SearchEnv) (q : Str) (k : ℕ)
    (h : semantic_unavailable env) :
    (∀ m ∈ unified_video_search env q k, m.confidence = 7/10) ∧
    (∀ m ∈ search_video env q, m.confidence = 7/10) := by
  have huni : ∀ k' m, m ∈ unified_video_search env q k' → m.confidence = 7/10 := by
    intro k' m hm
    rw [unified_fallthrough env q k' h] at hm
    cases hds : db_search_stage env q k' with
    | error e => rw [hds] at hm; simp at hm
    | ok r =>
      rw [hds] at hm
      exact db_search_stage_confidence env q k' r hds m hm
  refine ⟨huni k, fun m hm => ?_⟩
  obtain ⟨r, hr, rfl⟩ := List.mem_map.mp hm
  exact huni 3 r hr

unseal pyWords in
/-- Counterexample to Claim C9 as stated: a match returned through the
direct search endpoint carries confidence 0.7, not the claimed 0.8. -/
theorem substring_confidence_counterexample :
    ∃ m ∈ search_video confEnv "hello".data, m.confidence ≠ 8/10 := by
  decide

/-- Witness for Claim C9 at `confEnv`. -/
theorem substring_confidence_witness :
    (∀ m ∈ unified_video_search confEnv "hello".data 3, m.confidence = 7/10) ∧
    (∀ m ∈ search_video confEnv "hello".data, m.confidence = 7/10) :=
  substring_confidence confEnv "hello".data 3 (Or.inl rfl)

/-- Claim C10: submitting a URL whose extracted id already exists as a
YouTube-type record returns that record unchanged — same table, no video
info fetch, no transcript processing. -/
theorem youtube_upload_dedup (env : UploadEnv) (url y : Str) (v : VideoRec)
    (hx : extract_youtube_id url = Except.ok y)
    (hfind : findExistingYouTube env.db y = some v) :
    upload_youtube_video env url = ⟨Except.ok v, env.db, false, false⟩ := by
  unfold upload_youtube_video
  rw [hx]
  simp only [hfind]

unseal pySplitOnGo in
/-- Witness for Claim C10 at a concrete `youtu.be` URL whose id is already
present. -/
theorem youtube_upload_dedup_witness :
    upload_youtube_video dedupEnv "https://youtu.be/abc123?t=4".data =
      ⟨Except.ok dedupRec, [dedupRec], false, false⟩ :=
  youtube_upload_dedup dedupEnv "https://youtu.be/abc123?t=4".data "abc123".data
    dedupRec (by decide) (by decide)

end ClipQuery
